import Mathlib

/-!
Verification development for the depres dependency-closure tool
(src/main.rs).  The program computes the transitive closure of filesystem
artifacts needed by a set of seed paths: a worklist driver classifies each
entity (symlink / directory / regular file), sniffs regular files for a
shebang header or an ELF magic, and dispatches to the shebang resolver, the
ELF dependency resolver and the best-effort glibc/NSS extension resolver.

The embedding is shallow.  Pure logic from the source (path normalization,
shebang extraction, env-flag scanning, trace-line parsing, nsswitch.conf
parsing, version parsing/comparison, the worklist loop and the final sort)
is translated directly into executable Lean functions over `List Char` /
`List Nat`.  Effectful primitives (filesystem metadata, file reads, the
dynamic-linker subprocess, the glibc version-banner subprocess, dynamic
loading, and the external crates shlex / which / elf-stream parsing) are
modelled as oracle functions collected in an `Env` structure; the value an
oracle returns corresponds to the observable result of the corresponding
effect, with `none` standing for the error case of the underlying call.

Rust panics (assert!/expect) are distinguished from recoverable
`anyhow::Result` errors by the three-valued result type `Res`: a `.err`
is caught by the driver and recorded as a per-path failure, while a
`.fatal` aborts the whole run.
-/

namespace Depres

/-- Three-valued outcome of a resolver step: `ok` is a successful
`Result::Ok`, `err` is a recoverable `Result::Err` (anyhow error), and
`fatal` is a Rust panic (failed `assert!` / `expect`), which is never
caught and aborts the entire process. -/
inductive Res (α : Type) where
  | ok (val : α)
  | err
  | fatal
deriving DecidableEq, Repr

/-! ## Character-list string utilities

The Rust code works on `&str` / `String`; we mirror the handful of string
operations it uses as structurally recursive functions over `List Char`,
so that every definition evaluates inside the kernel. -/

/-- Split a character list at every occurrence of `sep`, keeping empty
segments — the semantics of Rust `str::split(char)` (and of
`String::split_on` for a one-character pattern). -/
def chSplit (sep : Char) : List Char → List (List Char)
  | [] => [[]]
  | c :: cs =>
    match chSplit sep cs with
    | h :: t => if c = sep then [] :: h :: t else (c :: h) :: t
    | [] => [[c]]

/-- Helper for `chFields`: accumulates the current word (reversed). -/
def chFieldsAux : List Char → List Char → List (List Char)
  | [], acc => if acc = [] then [] else [acc.reverse]
  | c :: cs, acc =>
    if c.isWhitespace then
      if acc = [] then chFieldsAux cs [] else acc.reverse :: chFieldsAux cs []
    else chFieldsAux cs (c :: acc)

/-- Split at whitespace, discarding empty fields — Rust
`str::split_whitespace`. -/
def chFields (cs : List Char) : List (List Char) := chFieldsAux cs []

/-- Strip leading and trailing whitespace — Rust `str::trim`. -/
def chTrim (cs : List Char) : List Char :=
  ((cs.dropWhile Char.isWhitespace).reverse.dropWhile Char.isWhitespace).reverse

/-- `chStarts pat s` — Rust `str::starts_with` / slice `starts_with`. -/
def chStarts (pat s : List Char) : Bool := s.take pat.length == pat

/-- Byte-index of the first occurrence of `pat` as a contiguous sublist —
Rust `str::find(pat)` (our strings are processed as char lists; for the
ASCII patterns the code searches for, char and byte indices agree). -/
def chFindSub (pat : List Char) : List Char → Option Nat
  | [] => if pat = [] then some 0 else none
  | c :: cs =>
    if chStarts pat (c :: cs) then some 0
    else (chFindSub pat cs).map (fun n => n + 1)

/-- Rust `str::split_once(pat)`: split at the first occurrence of `pat`,
returning the parts before and after it. -/
def chSplitOnce (pat : List Char) : List Char → Option (List Char × List Char)
  | [] => none
  | c :: cs =>
    if chStarts pat (c :: cs) then some ([], (c :: cs).drop pat.length)
    else (chSplitOnce pat cs).map (fun pr => (c :: pr.1, pr.2))

/-- Case-insensitive character comparison, for the `(?i)` regex flag
(all pattern letters involved are ASCII). -/
def ciEq (a b : Char) : Bool := a.toLower == b.toLower

/-- Case-insensitively strip `pat` from the front of `s`, returning the
rest on success. -/
def ciStrip : List Char → List Char → Option (List Char)
  | [], s => some s
  | _ :: _, [] => none
  | p :: ps, c :: cs => if ciEq p c then ciStrip ps cs else none

/-- Keep the first occurrence of each element (the Rust code collects
these into a `HashSet`, whose iteration order is arbitrary; only the set
of elements matters downstream, because the closure result is sorted). -/
def distinctKeep (l : List String) : List String :=
  l.foldl (fun acc x => if acc.contains x then acc else acc ++ [x]) []

/-! ## Path manipulation

Paths are represented as strings.  `resolve_path` mirrors
`path_absolutize::Absolutize::absolutize_from`: make the path absolute
relative to the reference directory and collapse `.` / `..` lexically
(`..` at the root stays at the root).  `parentPath` and `fileNameOf`
mirror `Path::parent` / `Path::file_name` on the absolute, normalized
paths the driver works with. -/

/-- Lexical normalization of `/`-separated components: drop empty and `.`
components, let `..` pop the previous component (staying at the root when
there is none). -/
def normComps (cs : List (List Char)) : List (List Char) :=
  cs.foldl
    (fun acc c =>
      if c == [] || c == ['.'] then acc
      else if c == ['.', '.'] then acc.dropLast
      else acc ++ [c])
    []

/-- `resolve_path` from main.rs: absolutize `p` against the absolute
reference directory `reference` and normalize lexically (no filesystem
access, no symlink resolution). -/
def resolve_path (p : String) (reference : String) : String :=
  let full := if chStarts ['/'] p.data then p.data else reference.data ++ ('/' :: p.data)
  String.mk ('/' :: List.intercalate ['/'] (normComps (chSplit '/' full)))

/-- `Path::parent` restricted to the absolute normalized paths produced by
`resolve_path`: drop the last component; the root has no parent. -/
def parentPath (p : String) : Option String :=
  let comps := (chSplit '/' p.data).filter (fun c => !(c == []))
  match comps with
  | [] => none
  | _ :: _ =>
    some (String.mk ('/' :: List.intercalate ['/'] comps.dropLast))

/-- `Path::file_name` restricted to the paths the program builds: the last
`/`-separated component, with `none` for the root or a trailing `..`. -/
def fileNameOf (p : String) : Option String :=
  let comps := (chSplit '/' p.data).filter (fun c => !(c == []) && !(c == ['.']))
  match comps.getLast? with
  | none => none
  | some l => if l == ['.', '.'] then none else some (String.mk l)

/-! ## Version values (struct Version, main.rs lines 363-415) -/

/-- `struct Version(u64, Option<u64>, Option<u64>)`.  Lean structure
equality is fieldwise, exactly matching the manual `PartialEq`
implementation in the source (which requires identical presence/absence
of the optional fields). -/
structure Version where
  major : Nat
  minor : Option Nat
  patch : Option Nat
deriving DecidableEq, Repr

/-- Rust `u64::from_str`: an optional `+` sign, then one or more ASCII
digits, with the value required to fit in 64 bits. -/
def parseU64 (cs : List Char) : Option Nat :=
  let ds := match cs with
    | c :: rest => if c = '+' then rest else cs
    | [] => []
  if ds == [] then none
  else if ds.all Char.isDigit then
    let n := ds.foldl (fun acc c => acc * 10 + (c.toNat - 48)) 0
    if n < 18446744073709551616 then some n else none
  else none

/-- `impl FromStr for Version`: split on `.`; the first part must parse
as a `u64` (otherwise the whole parse fails); the second and third parts
contribute `minor` / `patch` only when they parse. -/
def version_from_str (s : String) : Option Version :=
  let parts := chSplit '.' s.data
  match parts with
  | [] => none
  | p0 :: _ =>
    match parseU64 p0 with
    | none => none
    | some major => some ⟨major, (parts[1]?).bind parseU64, (parts[2]?).bind parseU64⟩

/-- `impl Ord for Version`: compare `(major, minor.unwrap_or(0),
patch.unwrap_or(0))` lexicographically. -/
def version_cmp (a b : Version) : Ordering :=
  match compare a.major b.major with
  | Ordering.eq =>
    match compare (a.minor.getD 0) (b.minor.getD 0) with
    | Ordering.eq => compare (a.patch.getD 0) (b.patch.getD 0)
    | o => o
  | o => o

/-! ## UTF-8 (Rust `str::from_utf8` and `String::from_utf8_lossy`) -/

/-- Continuation byte test: `0x80..=0xBF`. -/
def isCont (b : Nat) : Bool := decide (128 ≤ b) && decide (b ≤ 191)

/-- Decode one UTF-8 scalar value from the front of a byte list,
implementing exactly the validation ranges of Rust
`core::str::run_utf8_validation` (rejecting overlong encodings,
surrogates and values above U+10FFFF). -/
def utf8DecodeOne : List Nat → Option (Nat × List Nat)
  | [] => none
  | b :: rest =>
    if b < 128 then some (b, rest)
    else if decide (194 ≤ b) && decide (b ≤ 223) then
      match rest with
      | c1 :: r => if isCont c1 then some ((b - 192) * 64 + (c1 - 128), r) else none
      | [] => none
    else if decide (224 ≤ b) && decide (b ≤ 239) then
      match rest with
      | c1 :: c2 :: r =>
        let lo1 := if b = 224 then 160 else 128
        let hi1 := if b = 237 then 159 else 191
        if decide (lo1 ≤ c1) && decide (c1 ≤ hi1) && isCont c2 then
          some ((b - 224) * 4096 + (c1 - 128) * 64 + (c2 - 128), r)
        else none
      | _ => none
    else if decide (240 ≤ b) && decide (b ≤ 244) then
      match rest with
      | c1 :: c2 :: c3 :: r =>
        let lo1 := if b = 240 then 144 else 128
        let hi1 := if b = 244 then 143 else 191
        if decide (lo1 ≤ c1) && decide (c1 ≤ hi1) && isCont c2 && isCont c3 then
          some ((b - 240) * 262144 + (c1 - 128) * 4096 + (c2 - 128) * 64 + (c3 - 128), r)
        else none
      | _ => none
    else none

/-- Fueled strict decoder; the fuel is always instantiated with the length
of the byte list, which suffices because every step consumes at least one
byte. -/
def utf8DecodeAux : Nat → List Nat → Option (List Char)
  | _, [] => some []
  | 0, _ :: _ => none
  | fuel + 1, b :: rest =>
    match utf8DecodeOne (b :: rest) with
    | none => none
    | some (cp, r) =>
      match utf8DecodeAux fuel r with
      | none => none
      | some cs => some (Char.ofNat cp :: cs)

/-- Rust `str::from_utf8` on a byte list: `some` of the decoded characters
exactly when the bytes are valid UTF-8. -/
def utf8Decode (bs : List Nat) : Option (List Char) := utf8DecodeAux bs.length bs

/-- Fueled lossy decoder: invalid byte runs are replaced with U+FFFD.
(Rust replaces each maximal invalid subpart with a single U+FFFD; we
replace each offending byte, which yields the same string on valid input
and a nonempty string on nonempty input in both semantics — the only
facts downstream code depends on.) -/
def utf8LossyAux : Nat → List Nat → List Char
  | _, [] => []
  | 0, _ :: _ => []
  | fuel + 1, b :: rest =>
    match utf8DecodeOne (b :: rest) with
    | some (cp, r) => Char.ofNat cp :: utf8LossyAux fuel r
    | none => Char.ofNat 65533 :: utf8LossyAux fuel rest

/-- Rust `String::from_utf8_lossy` on a byte list. -/
def utf8Lossy (bs : List Nat) : String := String.mk (utf8LossyAux bs.length bs)

/-! ## Environment: the effectful collaborators, as oracles -/

/-- Build-time target architecture (`cfg!(target_arch = ...)` in main). -/
inductive Arch where
  | x86_64
  | aarch64
  | other
deriving DecidableEq, Repr

/-- The three architecture-specific default dynamic-linker paths chosen at
build time in `main` (main.rs lines 22-31); unrecognized architectures
fall back to the 32-bit `/lib/ld-linux.so.2`. -/
def defaultLdso : Arch → String
  | Arch.x86_64 => "/lib64/ld-linux-x86-64.so.2"
  | Arch.aarch64 => "/lib/ld-linux-aarch64.so.1"
  | Arch.other => "/lib/ld-linux.so.2"

/-- Entity kind as reported by `fs::symlink_metadata` (which does not
follow symlinks). -/
inductive FileKind where
  | symlink
  | dir
  | file
  | other
deriving DecidableEq, Repr

/-- State of `/etc/nsswitch.conf`: absent (`is_file()` false), present but
failing to open/read (`File::open` or a `BufRead::lines` item returns
`Err`), or present with the given text lines. -/
inductive NssConf where
  | absent
  | unreadable
  | present (lines : List String)
deriving DecidableEq, Repr

/-- The `.interp` section of a parsed ELF container: either reading the
section data fails (`section_data` / `section_header_by_name` error), or
it carries raw bytes plus the compression flag (`section_data` returning
`Some` compression header). -/
inductive InterpSec where
  | readErr
  | sec (data : List Nat) (compressed : Bool)
deriving DecidableEq, Repr

/-- Observable content of an ELF container successfully opened by
`ElfStream::open_stream`: the `.interp` section, if any. -/
structure ElfModel where
  interp : Option InterpSec
deriving DecidableEq, Repr

/-- Oracles for every effectful primitive and external crate the program
consumes.  A `none` result models the error case of the corresponding
call.  Fields:
`stat` — `fs::symlink_metadata`; `readLink` — `fs::read_link`;
`readDir` — `fs::read_dir` (already mapped to full child paths, with
per-entry errors filtered out, as in `process`); `sniff` — opening the
file and reading its first 512 bytes; `isDirF` — `Path::is_dir`, which
follows symlinks; `elfOf` — `ElfStream::open_stream` on the file;
`shlexSplit` — the external `shlex::split`; `whichLookup` — the external
`which::which`; `glibcExec` — executing the candidate libc and capturing
its stdout lines (lossy-decoded), `none` for a spawn failure or
non-success exit; `findDynLib` — the `find_dyn_lib` dlopen+introspection
primitive, `some` exactly for `Ok(Some(path))` (a load failure `Err(_)`
and `Ok(None)` are both treated as "not found" by every caller);
`nssConf` — the state of /etc/nsswitch.conf; `ldsoTrace` — spawning the
dynamic linker with `LD_TRACE_LOADED_OBJECTS=1` and collecting its stdout
lines, `none` for a spawn or read failure. -/
structure Env where
  arch : Arch
  stat : String → Option FileKind
  readLink : String → Option String
  readDir : String → Option (List String)
  sniff : String → Option (List Nat)
  isDirF : String → Bool
  elfOf : String → Option ElfModel
  shlexSplit : String → Option (List String)
  whichLookup : String → Option String
  glibcExec : String → Option (List String)
  findDynLib : String → Option String
  nssConf : NssConf
  ldsoTrace : String → String → Option (List String)

/-! ## Shebang handling (find_shebang, find_env_cmd, main.rs 112-161, 341-351) -/

/-- `find_shebang` (main.rs 341-351): if the buffer starts with `#!`,
find the first newline byte; without one the function returns `None`.
The bytes strictly between `#!` and the newline must decode as UTF-8
(`str::from_utf8(...).ok()`), otherwise `None`. -/
def find_shebang (buffer : List Nat) : Option String :=
  if buffer.take 2 = [35, 33] then
    match List.findIdx? (fun b => b == 10) buffer with
    | some e => (utf8Decode ((buffer.take e).drop 2)).map String.mk
    | none => none
  else none

/-- The ELF sniff used by `process_file`, modelled from the `infer`
crate's ELF matcher: at least 53 bytes and the `\x7fELF` magic. -/
def is_elf (b : List Nat) : Bool :=
  decide (b.length > 52) && (b.take 4 == [127, 69, 76, 70])

/-- The fixed set of `env` boolean flags that consume no following token
(main.rs line 150). -/
def envBoolFlags : List String :=
  ["-i", "--ignore-environment", "-0", "--null", "-v", "--debug"]

/-- The fixed set of `env` value flags that consume exactly one following
token as their argument (main.rs line 151). -/
def envValueFlags : List String :=
  ["-u", "--unset", "-C", "--chdir", "-S", "--split-string"]

/-- `find_env_cmd` (main.rs 145-161): scan the tokens after
`/usr/bin/env` left to right; boolean flags are skipped, value flags also
skip their following token (when one exists — the `iter.len() > 0` guard
otherwise falls through to the catch-all `continue`), any other
`-`-leading token is skipped standalone, and the first non-flag token
without `=` is the command. -/
def find_env_cmd : List String → Option String
  | [] => none
  | arg :: rest =>
    if chStarts ['-'] arg.data then
      if envBoolFlags.contains arg then find_env_cmd rest
      else if envValueFlags.contains arg then
        match rest with
        | [] => none
        | _ :: rest2 => find_env_cmd rest2
      else find_env_cmd rest
    else if arg.data.contains '=' then find_env_cmd rest
    else some arg

/-! ## ELF dependency resolver (find_ldso, find_elf_deps, parse_elf) -/

/-- `find_ldso` (main.rs 289-311): no `.interp` section yields `Ok(None)`;
a failing section read is an error; a compressed section trips
`assert_eq!(interp_data.1, None, "compressed headers unsupported")`, a
panic that aborts the process (`.fatal`).  Otherwise the bytes up to the
first NUL are lossily decoded; a nonempty result is the requested
interpreter. -/
def find_ldso (m : ElfModel) : Res (Option String) :=
  match m.interp with
  | none => Res.ok none
  | some InterpSec.readErr => Res.err
  | some (InterpSec.sec data compressed) =>
    if compressed then Res.fatal
    else
      let bytes := data.takeWhile (fun b => b != 0)
      let interp := utf8Lossy bytes
      if interp == "" then Res.ok none else Res.ok (some interp)

/-- One line of `LD_TRACE_LOADED_OBJECTS` output (main.rs 323-334): after
trimming, the line must contain a `(0x` marker; the part before it is
trimmed and split at the first `=>`; a nonempty trimmed right-hand side
is the dependency path. -/
def parseTraceLine (line : String) : Option String :=
  let t := chTrim line.data
  match chFindSub ['(', '0', 'x'] t with
  | none => none
  | some pos =>
    let before := chTrim (t.take pos)
    match chSplitOnce ['=', '>'] before with
    | none => none
    | some pr =>
      let dep := chTrim pr.2
      if dep == [] then none else some (String.mk dep)

/-- `find_elf_deps` (main.rs 313-339): run the resolved dynamic linker in
trace mode against the target and parse each stdout line; a spawn or read
failure is an error (`none` from the oracle). -/
def find_elf_deps (env : Env) (path : String) (ldso : String) : Option (List String) :=
  (env.ldsoTrace ldso path).map (fun ls => ls.filterMap parseTraceLine)

/-- The C-library file-name gate (main.rs 171-172): the entity's file
name starts with `libc.so` or `libc-`. -/
def matchesLibcName : Option String → Bool
  | some n => chStarts "libc.so".data n.data || chStarts "libc-".data n.data
  | none => false

/-- Greedy match of `\d+\.\d+(?:\.\d+)?` at the current position,
returning the captured characters. -/
def matchVersionNum (cs : List Char) : Option (List Char) :=
  let d1 := cs.takeWhile Char.isDigit
  if d1 == [] then none
  else
    match cs.drop d1.length with
    | c :: r2 =>
      if c = '.' then
        let d2 := r2.takeWhile Char.isDigit
        if d2 == [] then none
        else
          match r2.drop d2.length with
          | c2 :: r4 =>
            if c2 = '.' then
              let d3 := r4.takeWhile Char.isDigit
              if d3 == [] then some (d1 ++ [c] ++ d2)
              else some (d1 ++ [c] ++ d2 ++ [c2] ++ d3)
            else some (d1 ++ [c] ++ d2)
          | [] => some (d1 ++ [c] ++ d2)
      else none
    | [] => none

/-- Match `version ` (case-insensitively) followed by the dotted number at
the current position. -/
def matchVersionAt (cs : List Char) : Option (List Char) :=
  match ciStrip "version ".data cs with
  | none => none
  | some rest => matchVersionNum rest

/-- Rightmost successful `matchVersionAt` over all suffixes — the
backtracking behaviour of the greedy `.*` in the regex. -/
def lastVersionMatch : List Char → Option (List Char)
  | [] => none
  | c :: cs =>
    match lastVersionMatch cs with
    | some r => some r
    | none => matchVersionAt (c :: cs)

/-- The `GLIBC_VERSION_RE` regex (main.rs 202):
`(?i)^GNU C Library.*version (\d+\.\d+(?:\.\d+)?)` — anchored
case-insensitive prefix, then a greedy gap, then the captured dotted
version. -/
def regexCapture (s : String) : Option String :=
  match ciStrip "GNU C Library".data s.data with
  | none => none
  | some rest => (lastVersionMatch rest).map String.mk

/-- `glibc_version` (main.rs 185-213): execute the candidate libc, take
the first stdout line, extract the dotted version with the regex and
parse it; every failure collapses to `none` (the caller only
distinguishes `Ok`/`Err`). -/
def glibc_version (env : Env) (path : String) : Option Version :=
  match env.glibcExec path with
  | none => none
  | some outLines =>
    match outLines.head? with
    | none => none
    | some first =>
      match regexCapture first with
      | none => none
      | some vs => version_from_str vs

/-- Handlers contributed by one nsswitch.conf line (main.rs 270-284):
strip the `#` comment suffix, split at whitespace, skip the first token
(the service label) and any token ending in `:`, strip a bracketed option
suffix, and keep nonempty results. -/
def nssLineHandlers (line : String) : List String :=
  let noComment := (chSplit '#' line.data).headD []
  match chFields noComment with
  | [] => []
  | _ :: rest =>
    rest.filterMap (fun part =>
      if part.getLast? == some ':' then none
      else
        let handler := (chSplit '[' part).headD []
        if handler == [] then none else some (String.mk handler))

/-- `parse_nsswitch_conf` on the file's lines (main.rs 265-287); the Rust
code accumulates into a `HashSet`, so only the set of handlers is
meaningful — we keep first occurrences. -/
def parse_nsswitch_conf (lines : List String) : List String :=
  distinctKeep ((lines.map nssLineHandlers).flatten)

/-- `find_glibc_deps` (main.rs 215-247): best-effort lookups of
`libgcc_s.so.1` and `libidn2.so.0`; then, if /etc/nsswitch.conf is a
file, parse it — a read failure here is a genuine `Err` (propagated by
the `?` at main.rs 226) — and for every handler try the three candidate
module names in order, keeping any that resolve; finally include the
configuration file path itself. -/
def find_glibc_deps (env : Env) (v : Version) : Except Unit (List String) :=
  let base :=
    (match env.findDynLib "libgcc_s.so.1" with | some p => [p] | none => []) ++
    (match env.findDynLib "libidn2.so.0" with | some p => [p] | none => [])
  match env.nssConf with
  | NssConf.absent => Except.ok base
  | NssConf.unreadable => Except.error ()
  | NssConf.present ls =>
    let nssFiles :=
      ((parse_nsswitch_conf ls).map (fun h =>
        let cands :=
          (match v.minor with
           | some mi =>
             ["libnss_" ++ h ++ "-" ++ toString v.major ++ "." ++ toString mi ++ ".so"]
           | none => []) ++
          ["libnss_" ++ h ++ ".so." ++ toString v.major, "libnss_" ++ h ++ ".so"]
        cands.filterMap env.findDynLib)).flatten
    Except.ok (base ++ nssFiles ++ ["/etc/nsswitch.conf"])

/-- Result of `parse_elf`, instrumented with whether the C-library NSS
extension step (the `glibc_version` probe) was attempted, so that the
gating property can be stated. -/
structure ParseElfOut where
  res : Res (List String)
  nssAttempted : Bool
deriving DecidableEq, Repr

/-- The tail of `parse_elf` once the linker is known and the file-name
gate has been evaluated: when the gate holds, probe the glibc version —
a failed probe silently contributes nothing, but a successful probe runs
`find_glibc_deps`, whose error is propagated by the `?` at main.rs 176
and fails the resolver.  Then the trace deps are appended and finally
the linker path itself. -/
def glibc_extension (env : Env) (path : String) (gate : Bool) : Except Unit (List String) :=
  if gate then
    match glibc_version env path with
    | some v => find_glibc_deps env v
    | none => Except.ok []
  else Except.ok []

/-- See `glibc_extension` for the extension step itself; this function
combines it with the linker trace and the final linker-path push. -/
def parse_elf_body (env : Env) (path : String) (ldso : String) (gate : Bool) :
    Res (List String) :=
  match glibc_extension env path gate with
  | Except.error _ => Res.err
  | Except.ok gfs =>
    match find_elf_deps env path ldso with
    | none => Res.err
    | some deps => Res.ok (gfs ++ deps ++ [ldso])

/-- `parse_elf` (main.rs 163-183): open the ELF stream (failure fails the
resolver), determine the requested linker via `find_ldso` (falling back
to the build-time default), evaluate the C-library file-name gate and run
`parse_elf_body`.  The second component records whether the C-library NSS
extension step was attempted. -/
def parse_elf (env : Env) (path : String) : ParseElfOut :=
  match env.elfOf path with
  | none => ⟨Res.err, false⟩
  | some m =>
    match find_ldso m with
    | Res.fatal => ⟨Res.fatal, false⟩
    | Res.err => ⟨Res.err, false⟩
    | Res.ok o =>
      let gate := matchesLibcName (fileNameOf path)
      ⟨parse_elf_body env path (o.getD (defaultLdso env.arch)) gate, gate⟩

/-- The requested dynamic linker a successful `parse_elf` run uses for
`path`: the `.interp` content when present and nonempty, else the
build-time default. -/
def resolvedLdso (env : Env) (path : String) : Option String :=
  match env.elfOf path with
  | none => none
  | some m =>
    match find_ldso m with
    | Res.ok o => some (o.getD (defaultLdso env.arch))
    | _ => none

/-! ## Entity resolver (process_file, process) -/

/-- `process_file` (main.rs 112-143): read up to 512 bytes; a shebang
header is tokenized with `shlex::split` (no tokens is an error), the
first token is always emitted, and for `/usr/bin/env` with arguments the
real command is located with `find_env_cmd` and resolved via
`which::which`, whose failure is propagated by the `?` at main.rs 135.
An ELF magic routes to `parse_elf`; anything else is a leaf. -/
def process_file (env : Env) (path : String) : Res (List String) :=
  match env.sniff path with
  | none => Res.err
  | some buffer =>
    match find_shebang buffer with
    | some shebang =>
      match (env.shlexSplit shebang).getD [] with
      | [] => Res.err
      | cmd :: args =>
        if cmd == "/usr/bin/env" && !args.isEmpty then
          match find_env_cmd args with
          | some c =>
            match env.whichLookup c with
            | some p => Res.ok [cmd, p]
            | none => Res.err
          | none => Res.ok [cmd]
        else Res.ok [cmd]
    | none =>
      if is_elf buffer then (parse_elf env path).res
      else Res.ok []

/-- `process` (main.rs 93-110): classify by `symlink_metadata` (failure is
an error): a symlink yields its raw link target, a directory its child
paths, a regular file goes to `process_file`, anything else is
unsupported. -/
def process (env : Env) (path : String) : Res (List String) :=
  match env.stat path with
  | none => Res.err
  | some FileKind.symlink =>
    match env.readLink path with
    | some t => Res.ok [t]
    | none => Res.err
  | some FileKind.dir =>
    match env.readDir path with
    | some children => Res.ok children
    | none => Res.err
  | some FileKind.file => process_file env path
  | some FileKind.other => Res.err

/-! ## Closure driver (main, main.rs 40-90) -/

/-- Final state of one driver run: the `processed_paths` map (as an
association list with unique keys, later entries prepended), the list of
paths on which the entity resolver was actually invoked (instrumentation
for stating the at-most-once invariant; most recent first), and whether
the run was aborted by a panic. -/
structure RunResult where
  record : List (String × Bool)
  invoked : List String
  aborted : Bool
deriving DecidableEq, Repr

/-- Normalization and dedup-filter of one batch of discovered references
against the reference directory (the body of the `filter_map` at main.rs
56-63): normalize each reference and keep it only when not already
recorded.  The record is the one from before the current path is
inserted, exactly as in the source. -/
def normalizeNew (results : List String) (reference : String)
    (record : List (String × Bool)) : List String :=
  results.filterMap (fun p =>
    let q := resolve_path p reference
    if (List.lookup q record).isSome then none else some q)

/-- The worklist loop of `main` (main.rs 45-74), with explicit fuel (the
Rust loop runs until the deque empties; every theorem below holds for
every fuel).  Pop the front path; skip it if already recorded; otherwise
invoke `process`: on success compute the reference directory — the path
itself when `Path::is_dir` (which follows symlinks) holds, else the
parent, whose absence is an `expect` panic — enqueue the normalized
unrecorded results and record success; on error record failure; a panic
aborts the run. -/
def driverLoop (env : Env) : Nat → List String → List (String × Bool) → List String → RunResult
  | 0, _, record, invoked => ⟨record, invoked, false⟩
  | _ + 1, [], record, invoked => ⟨record, invoked, false⟩
  | fuel + 1, path :: rest, record, invoked =>
    if (List.lookup path record).isSome then
      driverLoop env fuel rest record invoked
    else
      match process env path with
      | Res.fatal => ⟨record, path :: invoked, true⟩
      | Res.err => driverLoop env fuel rest ((path, false) :: record) (path :: invoked)
      | Res.ok results =>
        match (if env.isDirF path then some path else parentPath path) with
        | none => ⟨record, path :: invoked, true⟩
        | some reference =>
          driverLoop env fuel (rest ++ normalizeNew results reference record)
            ((path, true) :: record) (path :: invoked)

/-- Rust byte length of a string (`str::len`). -/
def strByteLen (s : String) : Nat := s.utf8ByteSize

/-- Byte-lexicographic comparison of char lists; on UTF-8 data this
coincides with Rust's byte-wise `str::cmp` because UTF-8 preserves
codepoint order. -/
def charListLe : List Char → List Char → Bool
  | [], _ => true
  | _ :: _, [] => false
  | x :: xs, y :: ys =>
    if x.toNat = y.toNat then charListLe xs ys else decide (x.toNat < y.toNat)

/-- The sort order of the final output (main.rs 86): ascending byte
length, ties broken lexicographically. -/
def pathLe (a b : String) : Prop :=
  strByteLen a < strByteLen b ∨ (strByteLen a = strByteLen b ∧ charListLe a.data b.data = true)

instance : DecidableRel pathLe := fun a b => by
  unfold pathLe; infer_instance

/-- The success keys of the processing record (the `filter_map` at
main.rs 78-84). -/
def successKeys (record : List (String × Bool)) : List String :=
  (record.filter (fun kv => kv.2)).map (fun kv => kv.1)

/-- The final output (main.rs 76-90): the success keys, sorted by length
then lexicographically.  The Rust code sorts a vector drawn from a
`HashMap` in arbitrary order; since `pathLe` is antisymmetric the sorted
permutation is unique, so any sorting algorithm over any draw order
yields the same list — we use insertion sort. -/
def finalOutput (record : List (String × Bool)) : List String :=
  List.insertionSort pathLe (successKeys record)

/-- The whole `main` run (main.rs 21-91): no arguments is a fatal usage
error (`none`); otherwise normalize the seeds against the working
directory, run the driver and sort the successes. -/
def mainModel (env : Env) (fuel : Nat) (args : List String) (cwd : String) :
    Option (RunResult × List String) :=
  match args with
  | [] => none
  | _ :: _ =>
    let seeds := args.map (fun s => resolve_path s cwd)
    let r := driverLoop env fuel seeds [] []
    some (r, finalOutput r.record)

/-! ## Helper lemmas -/

theorem charListLe_total : ∀ xs ys : List Char, charListLe xs ys = true ∨ charListLe ys xs = true := by
  intro xs
  induction xs with
  | nil => intro ys; exact Or.inl rfl
  | cons x xs ih =>
    intro ys
    cases ys with
    | nil => exact Or.inr rfl
    | cons y ys =>
      by_cases h : x.toNat = y.toNat
      · rcases ih ys with h2 | h2
        · exact Or.inl (by simp [charListLe, h, h2])
        · exact Or.inr (by simp [charListLe, h.symm, h2])
      · rcases Nat.lt_or_ge x.toNat y.toNat with hlt | hge
        · exact Or.inl (by simp [charListLe, h, hlt])
        · have hne : y.toNat ≠ x.toNat := fun e => h e.symm
          have hgt : y.toNat < x.toNat := Nat.lt_of_le_of_ne hge hne
          exact Or.inr (by simp [charListLe, hne, hgt])

theorem charListLe_trans : ∀ xs ys zs : List Char,
    charListLe xs ys = true → charListLe ys zs = true → charListLe xs zs = true := by
  intro xs
  induction xs with
  | nil => intro ys zs _ _; rfl
  | cons x xs ih =>
    intro ys zs h1 h2
    cases ys with
    | nil => simp [charListLe] at h1
    | cons y ys =>
      cases zs with
      | nil => simp [charListLe] at h2
      | cons z zs =>
        by_cases hxy : x.toNat = y.toNat
        · by_cases hyz : y.toNat = z.toNat
          · have hxz : x.toNat = z.toNat := hxy.trans hyz
            simp only [charListLe, if_pos hxy] at h1
            simp only [charListLe, if_pos hyz] at h2
            simpa [charListLe, hxz] using ih ys zs h1 h2
          · simp only [charListLe, if_neg hyz, decide_eq_true_eq] at h2
            have hxz : x.toNat < z.toNat := hxy ▸ h2
            simp [charListLe, Nat.ne_of_lt hxz, hxz]
        · simp only [charListLe, if_neg hxy, decide_eq_true_eq] at h1
          by_cases hyz : y.toNat = z.toNat
          · have hxz : x.toNat < z.toNat := hyz ▸ h1
            simp [charListLe, Nat.ne_of_lt hxz, hxz]
          · simp only [charListLe, if_neg hyz, decide_eq_true_eq] at h2
            have hxz := Nat.lt_trans h1 h2
            simp [charListLe, Nat.ne_of_lt hxz, hxz]

instance : IsTotal String pathLe :=
  ⟨fun a b => by
    unfold pathLe
    rcases Nat.lt_trichotomy (strByteLen a) (strByteLen b) with h | h | h
    · exact Or.inl (Or.inl h)
    · rcases charListLe_total a.data b.data with h2 | h2
      · exact Or.inl (Or.inr ⟨h, h2⟩)
      · exact Or.inr (Or.inr ⟨h.symm, h2⟩)
    · exact Or.inr (Or.inl h)⟩

instance : IsTrans String pathLe :=
  ⟨fun a b c hab hbc => by
    unfold pathLe at *
    rcases hab with h1 | ⟨h1e, h1l⟩
    · rcases hbc with h2 | ⟨h2e, _⟩
      · exact Or.inl (Nat.lt_trans h1 h2)
      · exact Or.inl (h2e ▸ h1)
    · rcases hbc with h2 | ⟨h2e, h2l⟩
      · exact Or.inl (h1e ▸ h2)
      · exact Or.inr ⟨h1e.trans h2e, charListLe_trans _ _ _ h1l h2l⟩⟩

theorem find_env_cmd_cons (arg : String) (rest : List String) :
    find_env_cmd (arg :: rest) =
      if chStarts ['-'] arg.data then
        if envBoolFlags.contains arg then find_env_cmd rest
        else if envValueFlags.contains arg then
          match rest with
          | [] => none
          | _ :: rest2 => find_env_cmd rest2
        else find_env_cmd rest
      else if arg.data.contains '=' then find_env_cmd rest
      else some arg := by
  cases rest <;> rfl

theorem bool_ne_true {c : Bool} (h : c = false) : ¬(c = true) := by simp [h]

theorem lookup_cons_isSome {p path : String} {b : Bool} {record : List (String × Bool)}
    (h : p = path ∨ (List.lookup p record).isSome = true) :
    (List.lookup p ((path, b) :: record)).isSome = true := by
  cases hbe : p == path with
  | true => simp [List.lookup, hbe]
  | false =>
    have hne : p ≠ path := by simpa using hbe
    rcases h with h | h
    · exact absurd h hne
    · simpa [List.lookup, hbe] using h

theorem driverLoop_invoked_aux (env : Env) :
    ∀ (fuel : Nat) (queue : List String) (record : List (String × Bool)) (invoked : List String),
      invoked.Nodup → (∀ p ∈ invoked, (List.lookup p record).isSome = true) →
      (driverLoop env fuel queue record invoked).invoked.Nodup := by
  intro fuel
  induction fuel with
  | zero => intro queue record invoked h1 _; simpa [driverLoop] using h1
  | succ n ih =>
    intro queue record invoked h1 h2
    cases queue with
    | nil => simpa [driverLoop] using h1
    | cons path rest =>
      by_cases hrec : (List.lookup path record).isSome = true
      · rw [show driverLoop env (n + 1) (path :: rest) record invoked =
              driverLoop env n rest record invoked from by simp [driverLoop, hrec]]
        exact ih rest record invoked h1 h2
      · have hnot : path ∉ invoked := fun hm => hrec (h2 path hm)
        have h1' : (path :: invoked).Nodup := List.nodup_cons.mpr ⟨hnot, h1⟩
        cases hp : process env path with
        | fatal =>
          rw [show driverLoop env (n + 1) (path :: rest) record invoked =
                ⟨record, path :: invoked, true⟩ from by simp [driverLoop, hrec, hp]]
          exact h1'
        | err =>
          rw [show driverLoop env (n + 1) (path :: rest) record invoked =
                driverLoop env n rest ((path, false) :: record) (path :: invoked) from by
              simp [driverLoop, hrec, hp]]
          refine ih _ _ _ h1' ?_
          intro p hpmem
          rcases List.mem_cons.mp hpmem with hpe | hpm
          · exact lookup_cons_isSome (Or.inl hpe)
          · exact lookup_cons_isSome (Or.inr (h2 p hpm))
        | ok results =>
          cases href : (if env.isDirF path then some path else parentPath path) with
          | none =>
            rw [show driverLoop env (n + 1) (path :: rest) record invoked =
                  ⟨record, path :: invoked, true⟩ from by simp [driverLoop, hrec, hp, href]]
            exact h1'
          | some reference =>
            rw [show driverLoop env (n + 1) (path :: rest) record invoked =
                  driverLoop env n (rest ++ normalizeNew results reference record)
                    ((path, true) :: record) (path :: invoked) from by
                simp [driverLoop, hrec, hp, href]]
            refine ih _ _ _ h1' ?_
            intro p hpmem
            rcases List.mem_cons.mp hpmem with hpe | hpm
            · exact lookup_cons_isSome (Or.inl hpe)
            · exact lookup_cons_isSome (Or.inr (h2 p hpm))

/-! ## Concrete environments used by witnesses and counterexamples -/

/-- An environment in which every oracle fails; individual test
environments override the fields they need. -/
def emptyEnv : Env where
  arch := Arch.x86_64
  stat := fun _ => none
  readLink := fun _ => none
  readDir := fun _ => none
  sniff := fun _ => none
  isDirF := fun _ => false
  elfOf := fun _ => none
  shlexSplit := fun _ => none
  whichLookup := fun _ => none
  glibcExec := fun _ => none
  findDynLib := fun _ => none
  nssConf := NssConf.absent
  ldsoTrace := fun _ _ => none

/-- A 64-byte buffer carrying the ELF magic. -/
def elfMagicBytes : List Nat := [127, 69, 76, 70] ++ List.replicate 60 0

/-- Script whose shebang line is `#!/usr/bin/env B`, with `B` resolving to
`/usr/bin/B` on the search path. -/
def envC7 : Env :=
  { emptyEnv with
    sniff := fun p =>
      if p = "/s" then some (("#!/usr/bin/env B\n").data.map Char.toNat) else none
    shlexSplit := fun s =>
      if s = "/usr/bin/env B" then some ["/usr/bin/env", "B"] else none
    whichLookup := fun c => if c = "B" then some "/usr/bin/B" else none }

/-- A regular file whose first bytes are `#!` with no newline in reach. -/
def envC10 : Env :=
  { emptyEnv with sniff := fun p => if p = "/f" then some [35, 33, 97, 98] else none }

/-! ## Claims -/

/-- C6: version parsing and comparison — "2.31" parses to
(2, Some(31), None); it orders strictly below "2.31.1"; it compares
Equal to "2.31.0" under `Ord` but the two are not equal under the
(fieldwise) equality relation. -/
theorem c6_version_semantics :
    version_from_str "2.31" = some ⟨2, some 31, none⟩ ∧
    version_from_str "2.31.1" = some ⟨2, some 31, some 1⟩ ∧
    version_from_str "2.31.0" = some ⟨2, some 31, some 0⟩ ∧
    version_cmp ⟨2, some 31, none⟩ ⟨2, some 31, some 1⟩ = Ordering.lt ∧
    version_cmp ⟨2, some 31, none⟩ ⟨2, some 31, some 0⟩ = Ordering.eq ∧
    (⟨2, some 31, none⟩ : Version) ≠ ⟨2, some 31, some 0⟩ := by
  refine ⟨by decide, by decide, by decide, by decide, by decide, by decide⟩

/-- C7: for a regular file whose shebang tokenizes with first token
`/usr/bin/env`, the resolver emits that first token, scans the remaining
tokens left to right (boolean flags consume zero following tokens, value
flags consume exactly one, any other `-`-leading token is skipped
standalone), takes the first non-flag token without `=` as the command,
resolves it through the search path and emits the found path; a failed
search-path lookup fails the resolver for that path. -/
theorem c7_env_indirection :
    (∀ (b : String) (rest : List String), envBoolFlags.contains b = true →
        find_env_cmd (b :: rest) = find_env_cmd rest) ∧
    (∀ (v x : String) (rest : List String), envValueFlags.contains v = true →
        find_env_cmd (v :: x :: rest) = find_env_cmd rest) ∧
    (∀ (a : String) (rest : List String), chStarts ['-'] a.data = true →
        envBoolFlags.contains a = false → envValueFlags.contains a = false →
        find_env_cmd (a :: rest) = find_env_cmd rest) ∧
    (∀ (c : String) (rest : List String), chStarts ['-'] c.data = false →
        c.data.contains '=' = false → find_env_cmd (c :: rest) = some c) ∧
    (∀ (env : Env) (path : String) (buffer : List Nat) (sb : String)
        (args : List String) (c p : String),
        env.sniff path = some buffer → find_shebang buffer = some sb →
        env.shlexSplit sb = some ("/usr/bin/env" :: args) → args ≠ [] →
        find_env_cmd args = some c → env.whichLookup c = some p →
        process_file env path = Res.ok ["/usr/bin/env", p]) ∧
    (∀ (env : Env) (path : String) (buffer : List Nat) (sb : String)
        (args : List String) (c : String),
        env.sniff path = some buffer → find_shebang buffer = some sb →
        env.shlexSplit sb = some ("/usr/bin/env" :: args) → args ≠ [] →
        find_env_cmd args = some c → env.whichLookup c = none →
        process_file env path = Res.err) := by
  refine ⟨?_, ?_, ?_, ?_, ?_, ?_⟩
  · intro b rest hb
    have hb' : b ∈ envBoolFlags := by simpa using hb
    have hst : chStarts ['-'] b.data = true := by fin_cases hb' <;> decide
    rw [find_env_cmd_cons, if_pos hst, if_pos hb]
  · intro v x rest hv
    have hv' : v ∈ envValueFlags := by simpa using hv
    have hst : chStarts ['-'] v.data = true := by fin_cases hv' <;> decide
    have hbf : envBoolFlags.contains v = false := by fin_cases hv' <;> decide
    rw [find_env_cmd_cons, if_pos hst, if_neg (bool_ne_true hbf), if_pos hv]
  · intro a rest h1 h2 h3
    rw [find_env_cmd_cons, if_pos h1, if_neg (bool_ne_true h2), if_neg (bool_ne_true h3)]
  · intro c rest h1 h2
    rw [find_env_cmd_cons, if_neg (bool_ne_true h1), if_neg (bool_ne_true h2)]
  · intro env path buffer sb args c p hs hf hx hne hfe hw
    rcases args with _ | ⟨a0, as0⟩
    · exact absurd rfl hne
    · simp [process_file, hs, hf, hx, hfe, hw]
  · intro env path buffer sb args c hs hf hx hne hfe hw
    rcases args with _ | ⟨a0, as0⟩
    · exact absurd rfl hne
    · simp [process_file, hs, hf, hx, hfe, hw]

theorem c7_env_indirection_witness :
    find_env_cmd ["-i", "B"] = find_env_cmd ["B"] ∧
    process_file envC7 "/s" = Res.ok ["/usr/bin/env", "/usr/bin/B"] :=
  ⟨c7_env_indirection.1 "-i" ["B"] (by decide),
   c7_env_indirection.2.2.2.2.1 envC7 "/s" (("#!/usr/bin/env B\n").data.map Char.toNat)
     "/usr/bin/env B" ["B"] "B" "/usr/bin/B"
     (by decide) (by decide) (by decide) (by decide) (by decide) (by decide)⟩

/-- C10: a regular file whose first 512 bytes start with `#!` but contain
no newline, or whose text between `#!` and the first newline is not valid
UTF-8, resolves successfully with an empty dependency list instead of
being routed to the shebang resolver or failing. -/
theorem c10_shebang_sniff_leniency :
    ∀ (env : Env) (path : String) (buffer : List Nat),
      env.sniff path = some buffer →
      buffer.take 2 = [35, 33] →
      (List.findIdx? (fun b => b == 10) buffer = none ∨
        ∀ e, List.findIdx? (fun b => b == 10) buffer = some e →
          utf8Decode ((buffer.take e).drop 2) = none) →
      process_file env path = Res.ok [] := by
  intro env path buffer hs h2 h3
  have h4 : buffer.take 4 ≠ [127, 69, 76, 70] := by
    intro hEq
    have h5 := congrArg (List.take 2) hEq
    rw [List.take_take] at h5
    norm_num at h5
    rw [h2] at h5
    exact absurd h5 (by decide)
  have helf : is_elf buffer = false := by
    have h6 : (buffer.take 4 == [127, 69, 76, 70]) = false := beq_eq_false_iff_ne.mpr h4
    simp [is_elf, h6]
  have hfs : find_shebang buffer = none := by
    rcases h3 with h3 | h3
    · simp [find_shebang, h2, h3]
    · cases hidx : List.findIdx? (fun b => b == 10) buffer with
      | none => simp [find_shebang, h2, hidx]
      | some e => simp [find_shebang, h2, hidx, h3 e hidx]
  simp [process_file, hs, hfs, helf]

theorem c10_shebang_sniff_leniency_witness :
    process_file envC10 "/f" = Res.ok [] :=
  c10_shebang_sniff_leniency envC10 "/f" [35, 33, 97, 98]
    (by decide) (by decide) (Or.inl (by decide))

/-- A file whose sniffed bytes carry the ELF magic but whose container
fails to parse (`ElfStream::open_stream` errors, e.g. a truncated ELF). -/
def envC8 : Env :=
  { emptyEnv with
    stat := fun _ => some FileKind.file,
    sniff := fun _ => some elfMagicBytes }

/-- C8 (amended): the C-library NSS extension step is attempted exactly
when the file name matches the C-library naming convention AND the ELF
container parsed AND the `.interp` section step did not fail; a file
named `libfoo.so` never triggers it, regardless of content. -/
theorem c8_nss_gating_amended :
    (∀ (env : Env) (path : String),
        (parse_elf env path).nssAttempted = true ↔
          (matchesLibcName (fileNameOf path) = true ∧
           ∃ m, env.elfOf path = some m ∧ ∃ o, find_ldso m = Res.ok o)) ∧
    (∀ (env : Env) (path : String), fileNameOf path = some "libfoo.so" →
        (parse_elf env path).nssAttempted = false) := by
  have h1 : ∀ (env : Env) (path : String),
      (parse_elf env path).nssAttempted = true ↔
        (matchesLibcName (fileNameOf path) = true ∧
         ∃ m, env.elfOf path = some m ∧ ∃ o, find_ldso m = Res.ok o) := by
    intro env path
    cases helf : env.elfOf path with
    | none => simp [parse_elf, helf]
    | some m =>
      cases hld : find_ldso m with
      | fatal => simp [parse_elf, helf, hld]
      | err => simp [parse_elf, helf, hld]
      | ok o =>
        simp only [parse_elf, helf, hld]
        constructor
        · intro hAtt
          exact ⟨hAtt, m, rfl, o, hld⟩
        · intro h
          exact h.1
  refine ⟨h1, ?_⟩
  intro env path h
  have hg : matchesLibcName (fileNameOf path) = false := by rw [h]; decide
  cases hA : (parse_elf env path).nssAttempted with
  | false => rfl
  | true =>
    have h2 := ((h1 env path).mp hA).1
    rw [hg] at h2
    exact absurd h2 (by decide)

theorem c8_nss_gating_witness :
    (parse_elf emptyEnv "/libfoo.so").nssAttempted = false :=
  c8_nss_gating_amended.2 emptyEnv "/libfoo.so" (by decide)

theorem c8_nss_gating_counterexample :
    is_elf elfMagicBytes = true ∧
    envC8.elfOf "/libc.so.6" = none ∧
    matchesLibcName (fileNameOf "/libc.so.6") = true ∧
    (parse_elf envC8 "/libc.so.6").nssAttempted = false :=
  ⟨by decide, rfl, by decide, by decide⟩

/-- An ELF binary with no `.interp` section; the linker trace reports no
dependencies of its own. -/
def envC9 : Env :=
  { emptyEnv with
    elfOf := fun _ => some ⟨none⟩,
    ldsoTrace := fun _ _ => some [] }

/-- C9: every successfully resolved ELF entity emits the resolved dynamic
linker's own path as a dependency; when the `.interp` section is absent,
or present, uncompressed and with empty content before the first NUL, the
resolved linker is the architecture-specific build-time default (with the
narrowest default for unrecognized architectures), so the dependency list
contains the default linker path. -/
theorem c9_default_linker :
    (∀ (env : Env) (path : String) (files : List String),
        (parse_elf env path).res = Res.ok files →
        ∃ l, resolvedLdso env path = some l ∧ l ∈ files) ∧
    (∀ (env : Env) (path : String) (m : ElfModel) (files : List String),
        env.elfOf path = some m →
        (m.interp = none ∨
          ∃ d, m.interp = some (InterpSec.sec d false) ∧
            List.takeWhile (fun b => b != 0) d = []) →
        (parse_elf env path).res = Res.ok files →
        defaultLdso env.arch ∈ files) ∧
    (defaultLdso Arch.x86_64 = "/lib64/ld-linux-x86-64.so.2" ∧
     defaultLdso Arch.aarch64 = "/lib/ld-linux-aarch64.so.1" ∧
     defaultLdso Arch.other = "/lib/ld-linux.so.2") := by
  have ha : ∀ (env : Env) (path : String) (files : List String),
      (parse_elf env path).res = Res.ok files →
      ∃ l, resolvedLdso env path = some l ∧ l ∈ files := by
    intro env path files h
    cases helf : env.elfOf path with
    | none => simp [parse_elf, helf] at h
    | some m =>
      cases hld : find_ldso m with
      | fatal => simp [parse_elf, helf, hld] at h
      | err => simp [parse_elf, helf, hld] at h
      | ok o =>
        simp only [parse_elf, helf, hld] at h
        cases hG : glibc_extension env path (matchesLibcName (fileNameOf path)) with
        | error e => simp [parse_elf_body, hG] at h
        | ok gfs =>
          cases hT : find_elf_deps env path (o.getD (defaultLdso env.arch)) with
          | none => simp [parse_elf_body, hG, hT] at h
          | some deps =>
            simp only [parse_elf_body, hG, hT, Res.ok.injEq] at h
            refine ⟨o.getD (defaultLdso env.arch), by simp [resolvedLdso, helf, hld], ?_⟩
            rw [← h]
            simp
  refine ⟨ha, ?_, rfl, rfl, rfl⟩
  intro env path m files helf hint h
  have hld : find_ldso m = Res.ok none := by
    rcases hint with h2 | ⟨d, h2, h3⟩
    · simp [find_ldso, h2]
    · have he : utf8Lossy (List.takeWhile (fun b => b != 0) d) = "" := by rw [h3]; rfl
      simp [find_ldso, h2, he]
  obtain ⟨l, hl, hmem⟩ := ha env path files h
  have hres : resolvedLdso env path = some (defaultLdso env.arch) := by
    simp [resolvedLdso, helf, hld]
  rw [hres] at hl
  rw [Option.some.inj hl]
  exact hmem

theorem c9_default_linker_witness :
    defaultLdso envC9.arch ∈ ["/lib64/ld-linux-x86-64.so.2"] :=
  c9_default_linker.2.1 envC9 "/bin/x" ⟨none⟩ ["/lib64/ld-linux-x86-64.so.2"]
    (by decide) (Or.inl rfl) (by decide)

/-- A libc-named ELF whose version probe succeeds but whose nsswitch.conf
is present yet unreadable — the configuration of the C1 counterexample. -/
def envC1 : Env :=
  { emptyEnv with
    elfOf := fun _ => some ⟨none⟩,
    glibcExec := fun _ => some ["GNU C Library version 2.31"],
    nssConf := NssConf.unreadable,
    ldsoTrace := fun _ _ => some [] }

/-- Same environment, but the version probe itself fails. -/
def envC1b : Env := { envC1 with glibcExec := fun _ => none }

/-- C1 (amended): failures of the version probe (and of the best-effort
library lookups) degrade silently — the ELF resolution succeeds with only
the dependencies found outside the extension step — but an error while
opening/reading a present NSS configuration file propagates through the
`?` at main.rs 176 and fails the whole ELF resolution. -/
theorem c1_extension_best_effort_amended :
    (∀ (env : Env) (path : String) (m : ElfModel) (o : Option String) (lines : List String),
        env.elfOf path = some m →
        find_ldso m = Res.ok o →
        matchesLibcName (fileNameOf path) = true →
        glibc_version env path = none →
        env.ldsoTrace (o.getD (defaultLdso env.arch)) path = some lines →
        (parse_elf env path).res =
          Res.ok (lines.filterMap parseTraceLine ++ [o.getD (defaultLdso env.arch)])) ∧
    (∀ (env : Env) (path : String) (m : ElfModel) (o : Option String) (v : Version),
        env.elfOf path = some m →
        find_ldso m = Res.ok o →
        matchesLibcName (fileNameOf path) = true →
        glibc_version env path = some v →
        env.nssConf = NssConf.unreadable →
        (parse_elf env path).res = Res.err) := by
  constructor
  · intro env path m o lines helf hld hgate hgv htr
    simp [parse_elf, helf, hld, parse_elf_body, glibc_extension, hgate, hgv,
      find_elf_deps, htr]
  · intro env path m o v helf hld hgate hgv hnss
    simp [parse_elf, helf, hld, parse_elf_body, glibc_extension, hgate, hgv,
      find_glibc_deps, hnss]

theorem c1_extension_best_effort_witness :
    (parse_elf envC1b "/libc.so.6").res = Res.ok ["/lib64/ld-linux-x86-64.so.2"] ∧
    (parse_elf envC1 "/libc.so.6").res = Res.err :=
  ⟨Eq.trans
    (c1_extension_best_effort_amended.1 envC1b "/libc.so.6" ⟨none⟩ none []
      (by decide) (by decide) (by decide) (by decide) (by decide))
    (by decide),
   c1_extension_best_effort_amended.2 envC1 "/libc.so.6" ⟨none⟩ none ⟨2, some 31, none⟩
     (by decide) (by decide) (by decide) (by decide) rfl⟩

theorem c1_extension_best_effort_counterexample :
    envC1.nssConf = NssConf.unreadable ∧
    glibc_version envC1 "/libc.so.6" = some ⟨2, some 31, none⟩ ∧
    (parse_elf envC1 "/libc.so.6").res = Res.err :=
  ⟨rfl, by decide, by decide⟩

/-- An ELF binary whose `.interp` section is stored compressed, queued
ahead of an unrelated second seed. -/
def envC2 : Env :=
  { emptyEnv with
    stat := fun p => if p = "/x/bin" then some FileKind.file else none,
    sniff := fun p => if p = "/x/bin" then some elfMagicBytes else none,
    elfOf := fun p =>
      if p = "/x/bin" then some ⟨some (InterpSec.sec [47] true)⟩ else none }

/-- C2 (amended): a compressed `.interp` section trips the
`assert_eq!` in `find_ldso`, a panic that aborts the entire run: the path
is not marked failed in the record and the remaining worklist items are
not processed. -/
theorem c2_compressed_interp_amended :
    (∀ (m : ElfModel) (d : List Nat), m.interp = some (InterpSec.sec d true) →
        find_ldso m = Res.fatal) ∧
    (∀ (env : Env) (path : String) (rest : List String)
        (record : List (String × Bool)) (invoked : List String) (fuel : Nat),
        List.lookup path record = none →
        process env path = Res.fatal →
        driverLoop env (fuel + 1) (path :: rest) record invoked =
          ⟨record, path :: invoked, true⟩) := by
  constructor
  · intro m d h
    simp [find_ldso, h]
  · intro env path rest record invoked fuel hlook hproc
    simp [driverLoop, hlook, hproc]

theorem c2_compressed_interp_witness :
    find_ldso ⟨some (InterpSec.sec [47] true)⟩ = Res.fatal ∧
    driverLoop envC2 1 ["/x/bin"] [] [] = ⟨[], ["/x/bin"], true⟩ :=
  ⟨c2_compressed_interp_amended.1 ⟨some (InterpSec.sec [47] true)⟩ [47] rfl,
   c2_compressed_interp_amended.2 envC2 "/x/bin" [] [] [] 0 rfl (by decide)⟩

/-- A realizable filesystem: directory /a/c contains a regular file
/a/c/c; /a/b is a symlink with raw target `c`, so it points at the
directory /a/c, and the path /a/b/c reaches the regular file /a/c/c
through it.  `Path::is_dir("/a/b")` is true because it follows the
symlink. -/
def envC3 : Env :=
  { emptyEnv with
    stat := fun p =>
      if p = "/a/b" then some FileKind.symlink
      else if p = "/a/b/c" then some FileKind.file
      else none,
    readLink := fun p => if p = "/a/b" then some "c" else none,
    isDirF := fun p => p == "/a/b",
    sniff := fun p => if p = "/a/b/c" then some [] else none }

/-- C3 (amended): a successfully resolved entity's references are
normalized against the entity's own path whenever `Path::is_dir` — which
follows symlinks — reports a directory, and against the parent directory
otherwise; in particular a symlink whose target is a directory uses the
symlink's own path, not its parent, as the reference. -/
theorem c3_reference_dir_amended :
    ∀ (env : Env) (fuel : Nat) (path : String) (rest : List String)
      (record : List (String × Bool)) (invoked : List String) (results : List String),
      List.lookup path record = none →
      process env path = Res.ok results →
      ((env.isDirF path = true →
          driverLoop env (fuel + 1) (path :: rest) record invoked =
            driverLoop env fuel (rest ++ normalizeNew results path record)
              ((path, true) :: record) (path :: invoked)) ∧
       (∀ par, env.isDirF path = false → parentPath path = some par →
          driverLoop env (fuel + 1) (path :: rest) record invoked =
            driverLoop env fuel (rest ++ normalizeNew results par record)
              ((path, true) :: record) (path :: invoked))) := by
  intro env fuel path rest record invoked results hlook hproc
  constructor
  · intro hdir
    simp [driverLoop, hlook, hproc, hdir]
  · intro par hdir hpar
    simp [driverLoop, hlook, hproc, hdir, hpar]

theorem c3_reference_dir_witness :
    driverLoop envC3 1 ["/a/b"] [] [] =
      driverLoop envC3 0 ([] ++ normalizeNew ["c"] "/a/b" []) [("/a/b", true)] ["/a/b"] :=
  (c3_reference_dir_amended envC3 0 "/a/b" [] [] [] ["c"] rfl (by decide)).1 (by decide)

theorem c3_reference_dir_counterexample :
    envC3.stat "/a/b" = some FileKind.symlink ∧
    envC3.isDirF "/a/b" = true ∧
    process envC3 "/a/b" = Res.ok ["c"] ∧
    resolve_path "c" "/a" = "/a/c" ∧
    List.lookup "/a/b/c" (driverLoop envC3 10 ["/a/b"] [] []).record = some true ∧
    List.lookup "/a/c" (driverLoop envC3 10 ["/a/b"] [] []).record = none :=
  ⟨by decide, by decide, by decide, by decide, by decide, by decide⟩

/-- C4: within one driver run, the entity resolver is invoked at most
once per distinct normalized path — duplicate seeds, re-discoveries and
re-discoveries after a failure are all skipped at pop time, so a failed
path is never retried. -/
theorem c4_resolve_at_most_once :
    ∀ (env : Env) (fuel : Nat) (seeds : List String),
      (driverLoop env fuel seeds [] []).invoked.Nodup := by
  intro env fuel seeds
  exact driverLoop_invoked_aux env fuel seeds [] [] List.nodup_nil (by simp)

/-- Three seed paths that normalize to /a, /bb and /ab, each an empty
regular file. -/
def envC5 : Env :=
  { emptyEnv with
    stat := fun p =>
      if p = "/a" ∨ p = "/bb" ∨ p = "/ab" then some FileKind.file else none,
    sniff := fun p =>
      if p = "/a" ∨ p = "/bb" ∨ p = "/ab" then some [] else none }

/-- C5: the final output contains exactly the success=true paths of the
record (no failed paths, no duplicates) sorted by ascending byte length
and then lexicographically; concretely, seeds resolving to /a, /bb, /ab
produce the output /a, /ab, /bb. -/
theorem c5_sorted_output :
    (∀ record : List (String × Bool),
        (record.map Prod.fst).Nodup →
        ((∀ p, p ∈ finalOutput record ↔ (p, true) ∈ record) ∧
         (finalOutput record).Nodup ∧
         List.Sorted pathLe (finalOutput record))) ∧
    (mainModel envC5 10 ["/a", "/bb", "/ab"] "/").map (fun r => r.2) =
      some ["/a", "/ab", "/bb"] := by
  constructor
  · intro record hN
    have hperm : List.Perm (finalOutput record) (successKeys record) :=
      List.perm_insertionSort pathLe (successKeys record)
    refine ⟨?_, ?_, ?_⟩
    · intro p
      rw [hperm.mem_iff]
      constructor
      · intro hp
        simp only [successKeys, List.mem_map, List.mem_filter] at hp
        obtain ⟨kv, ⟨hmem, hkv⟩, hfst⟩ := hp
        have : kv = (p, true) := by
          cases kv
          simp_all
        rw [this] at hmem
        exact hmem
      · intro hp
        simp only [successKeys, List.mem_map, List.mem_filter]
        exact ⟨(p, true), ⟨hp, rfl⟩, rfl⟩
    · have hsub : List.Sublist (successKeys record) (record.map Prod.fst) := by
        have hf : List.Sublist (record.filter (fun kv => kv.2)) record :=
          List.filter_sublist record
        exact hf.map Prod.fst
      exact hperm.symm.nodup (hsub.nodup hN)
    · exact List.sorted_insertionSort pathLe (successKeys record)
  · decide

theorem c5_sorted_output_witness :
    ("/b" ∈ finalOutput [("/b", true), ("/a", false)] ↔
      ("/b", true) ∈ [("/b", true), ("/a", false)]) ∧
    List.Sorted pathLe (finalOutput [("/b", true), ("/a", false)]) :=
  ⟨(c5_sorted_output.1 [("/b", true), ("/a", false)] (by decide)).1 "/b",
   (c5_sorted_output.1 [("/b", true), ("/a", false)] (by decide)).2.2⟩

theorem c2_compressed_interp_counterexample :
    envC2.elfOf "/x/bin" = some ⟨some (InterpSec.sec [47] true)⟩ ∧
    (driverLoop envC2 10 ["/x/bin", "/y"] [] []).aborted = true ∧
    (driverLoop envC2 10 ["/x/bin", "/y"] [] []).record = [] :=
  ⟨by decide, by decide, by decide⟩

end Depres
